import Mathlib

/-
  Shallow embedding of the employee-retention-risk scoring pipeline
  (notebook `Full_Retention_Model_Walkthrough.ipynb`).

  Numeric cells are modelled as rationals.  Library calls made by the
  notebook (sklearn `MinMaxScaler`, pandas `quantile`/`cut`, SMOTE,
  `train_test_split`, RFE) are embedded by their documented semantics at
  the call sites used by the notebook.
-/

namespace Retention

/-- Smallest element of a list of rationals (`0` for the empty list).
`MinMaxScaler.fit` records this value as `data_min_`. -/
def listMin : List ℚ → ℚ
  | [] => 0
  | h :: t => t.foldl min h

/-- Largest element of a list of rationals (`0` for the empty list).
`MinMaxScaler.fit` records this value as `data_max_`. -/
def listMax : List ℚ → ℚ
  | [] => 0
  | h :: t => t.foldl max h

lemma foldl_min_le (l : List ℚ) (a : ℚ) : ∀ x ∈ a :: l, l.foldl min a ≤ x := by
  induction l generalizing a with
  | nil => intro x hx; simp at hx; simp [hx]
  | cons h t ih =>
    intro x hx
    have hmem : ∀ y ∈ (min a h) :: t, t.foldl min (min a h) ≤ y := ih (min a h)
    have hacc : t.foldl min (min a h) ≤ min a h := hmem _ (by simp)
    rcases List.mem_cons.mp hx with rfl | hx2
    · exact le_trans hacc (min_le_left _ _)
    · rcases List.mem_cons.mp hx2 with rfl | hx3
      · exact le_trans hacc (min_le_right _ _)
      · exact hmem x (List.mem_cons_of_mem _ hx3)

lemma le_foldl_max (l : List ℚ) (a : ℚ) : ∀ x ∈ a :: l, x ≤ l.foldl max a := by
  induction l generalizing a with
  | nil => intro x hx; simp at hx; simp [hx]
  | cons h t ih =>
    intro x hx
    have hmem : ∀ y ∈ (max a h) :: t, y ≤ t.foldl max (max a h) := ih (max a h)
    have hacc : max a h ≤ t.foldl max (max a h) := hmem _ (by simp)
    rcases List.mem_cons.mp hx with rfl | hx2
    · exact le_trans (le_max_left _ _) hacc
    · rcases List.mem_cons.mp hx2 with rfl | hx3
      · exact le_trans (le_max_right _ _) hacc
      · exact hmem x (List.mem_cons_of_mem _ hx3)

lemma foldl_min_mem (l : List ℚ) (a : ℚ) : l.foldl min a ∈ a :: l := by
  induction l generalizing a with
  | nil => simp [List.foldl]
  | cons h t ih =>
    have hrec := ih (min a h)
    rcases List.mem_cons.mp hrec with heq | hmem
    · rcases min_choice a h with hc | hc
      · rw [List.foldl, heq, hc]; simp
      · rw [List.foldl, heq, hc]; simp
    · exact List.mem_cons_of_mem _ (List.mem_cons_of_mem _ hmem)

lemma foldl_max_mem (l : List ℚ) (a : ℚ) : l.foldl max a ∈ a :: l := by
  induction l generalizing a with
  | nil => simp [List.foldl]
  | cons h t ih =>
    have hrec := ih (max a h)
    rcases List.mem_cons.mp hrec with heq | hmem
    · rcases max_choice a h with hc | hc
      · rw [List.foldl, heq, hc]; simp
      · rw [List.foldl, heq, hc]; simp
    · exact List.mem_cons_of_mem _ (List.mem_cons_of_mem _ hmem)

lemma listMin_le {x : ℚ} {l : List ℚ} (hx : x ∈ l) : listMin l ≤ x := by
  cases l with
  | nil => cases hx
  | cons h t => exact foldl_min_le t h x hx

lemma le_listMax {x : ℚ} {l : List ℚ} (hx : x ∈ l) : x ≤ listMax l := by
  cases l with
  | nil => cases hx
  | cons h t => exact le_foldl_max t h x hx

lemma listMin_mem {l : List ℚ} (h : l ≠ []) : listMin l ∈ l := by
  cases l with
  | nil => exact absurd rfl h
  | cons a t => exact foldl_min_mem t a

lemma listMax_mem {l : List ℚ} (h : l ≠ []) : listMax l ∈ l := by
  cases l with
  | nil => exact absurd rfl h
  | cons a t => exact foldl_max_mem t a

/-- sklearn `MinMaxScaler` (default feature range `(0,1)`) fit on the batch
`xs` and applied to a value `x`: `(x - data_min_) * scale_` where
`scale_ = 1 / (data_max_ - data_min_)`, with a zero range replaced by a unit
scale (`_handle_zeros_in_scale`). -/
def minMaxScale (xs : List ℚ) (x : ℚ) : ℚ :=
  if listMax xs = listMin xs then x - listMin xs
  else (x - listMin xs) / (listMax xs - listMin xs)

/-- Notebook cell 8: `df["Retention_Risk"] = 1 - scaler.fit_transform(df[["Predicted_Prob_Stay"]])`
with `scaler = MinMaxScaler()` fit on the very batch being scored. -/
def retentionRisk (batch : List ℚ) (p : ℚ) : ℚ := 1 - minMaxScale batch p

lemma all_eq_of_listMax_eq_listMin {l : List ℚ} (h : listMax l = listMin l)
    {x : ℚ} (hx : x ∈ l) : x = listMin l :=
  le_antisymm (h ▸ le_listMax hx) (listMin_le hx)

lemma minMaxScale_mem_unit {xs : List ℚ} {x : ℚ} (hx : x ∈ xs) :
    0 ≤ minMaxScale xs x ∧ minMaxScale xs x ≤ 1 := by
  unfold minMaxScale
  by_cases hdeg : listMax xs = listMin xs
  · have hx0 : x = listMin xs := all_eq_of_listMax_eq_listMin hdeg hx
    simp [hdeg, hx0]
  · have hlo : listMin xs ≤ x := listMin_le hx
    have hhi : x ≤ listMax xs := le_listMax hx
    have hlt : listMin xs < listMax xs :=
      lt_of_le_of_ne (le_trans hlo hhi) (fun h => hdeg h.symm)
    have hpos : 0 < listMax xs - listMin xs := by linarith
    rw [if_neg hdeg]
    constructor
    · exact div_nonneg (by linarith) (le_of_lt hpos)
    · rw [div_le_one hpos]; linarith

lemma minMaxScale_strict_mono {xs : List ℚ} {x y : ℚ}
    (hx : x ∈ xs) (hy : y ∈ xs) (hxy : x < y) :
    minMaxScale xs x < minMaxScale xs y := by
  unfold minMaxScale
  by_cases hdeg : listMax xs = listMin xs
  · have h1 : x = listMin xs := all_eq_of_listMax_eq_listMin hdeg hx
    have h2 : y = listMin xs := all_eq_of_listMax_eq_listMin hdeg hy
    exact absurd (h2 ▸ h1 ▸ hxy) (lt_irrefl _)
  · have hlo : listMin xs ≤ x := listMin_le hx
    have hhi : y ≤ listMax xs := le_listMax hy
    have hlt : listMin xs < listMax xs := by
      refine lt_of_le_of_ne ?_ (fun h => hdeg h.symm)
      linarith
    have hpos : 0 < listMax xs - listMin xs := by linarith
    simp only [if_neg hdeg]
    exact div_lt_div_of_pos_right
      (show x - listMin xs < y - listMin xs by linarith) hpos

lemma retentionRisk_mem_unit {xs : List ℚ} {x : ℚ} (hx : x ∈ xs) :
    0 ≤ retentionRisk xs x ∧ retentionRisk xs x ≤ 1 := by
  obtain ⟨h0, h1⟩ := minMaxScale_mem_unit hx
  unfold retentionRisk
  constructor <;> linarith

/-- C1: for every scored batch, `Retention_Risk` is `1` minus the min-max
normalization of `Predicted_Prob_Stay` fit on the batch being scored itself;
consequently every row's risk lies in `[0,1]` and the risk is strictly
decreasing in `Predicted_Prob_Stay` within the batch. -/
theorem c1_risk_unit_interval_strictly_decreasing (batch : List ℚ) :
    (∀ p ∈ batch, retentionRisk batch p = 1 - minMaxScale batch p
        ∧ 0 ≤ retentionRisk batch p ∧ retentionRisk batch p ≤ 1)
    ∧ (∀ p ∈ batch, ∀ q ∈ batch, p < q →
        retentionRisk batch q < retentionRisk batch p) := by
  constructor
  · intro p hp
    exact ⟨rfl, retentionRisk_mem_unit hp⟩
  · intro p hp q hq hpq
    have := minMaxScale_strict_mono hp hq hpq
    unfold retentionRisk
    linarith

/-- C1 witness: instantiated on the concrete batch `[1/4, 3/4]`. -/
theorem c1_witness :
    retentionRisk [(1:ℚ)/4, 3/4] (3/4) < retentionRisk [(1:ℚ)/4, 3/4] (1/4) :=
  (c1_risk_unit_interval_strictly_decreasing [(1:ℚ)/4, 3/4]).2
    (1/4) (by simp) (3/4) (by simp) (by norm_num)

/-- pandas `Series.quantile` with the default linear interpolation: with the
values sorted ascending, the result interpolates between the entries at
positions `⌊h⌋` and `⌊h⌋ + 1` where `h = q * (n - 1)`. -/
def quantile (xs : List ℚ) (q : ℚ) : ℚ :=
  let s := List.insertionSort (fun a b : ℚ => a ≤ b) xs
  let h := q * ((s.length : ℚ) - 1)
  let i := (Int.floor h).toNat
  let lo := s.getD i 0
  lo + (h - (i : ℚ)) * (s.getD (i + 1) lo - lo)

/-- The three ordinal risk tiers used as `labels` of the notebook's `pd.cut`
call: `"Low Risk"`, `"Moderate Risk"`, `"High Risk"`. -/
inductive Tier where
  | low
  | moderate
  | high
  deriving DecidableEq, Repr

/-- One bin lookup of `pd.cut` with bins `[-inf, p50, p90, inf]` and the
default `right=True`: a value falls in `(-inf, p50]`, `(p50, p90]` or
`(p90, inf)`. -/
def tierOf (p50 p90 r : ℚ) : Tier :=
  if r ≤ p50 then Tier.low else if r ≤ p90 then Tier.moderate else Tier.high

/-- Notebook cell 8: `pd.cut(df["Retention_Risk"], bins=[-inf, p50, p90, inf],
labels=[...])` with `p50`/`p90` the batch's own quantiles.  `pd.cut` (default
`duplicates='raise'`) raises a `ValueError` when two bin edges coincide; the
outer edges are infinite, so the cut succeeds exactly when `p50 < p90`. -/
def assignTiers (risks : List ℚ) : Option (List Tier) :=
  if quantile risks (1/2) < quantile risks (9/10)
  then some (risks.map (tierOf (quantile risks (1/2)) (quantile risks (9/10))))
  else none

lemma perm_replicate_eq {l : List ℚ} {n : ℕ} {r : ℚ}
    (h : l.Perm (List.replicate n r)) : l = List.replicate n r := by
  have hlen : l.length = n := by simpa using h.length_eq
  subst hlen
  exact List.eq_replicate_length.mpr (fun b hb => List.eq_of_mem_replicate (h.mem_iff.mp hb))

lemma getD_replicate_of_lt {n i : ℕ} {r d : ℚ} (h : i < n) :
    (List.replicate n r).getD i d = r := by
  rw [List.getD_eq_getElem?_getD]
  simp [List.getElem?_replicate, h]

lemma floor_scaled_index_lt {q : ℚ} {n : ℕ} (hq0 : 0 ≤ q) (hq1 : q ≤ 1)
    (hn : 1 ≤ n) : (Int.floor (q * ((n:ℚ) - 1))).toNat < n := by
  have hn1 : (1:ℚ) ≤ (n:ℚ) := by exact_mod_cast hn
  have h1 : q * ((n:ℚ) - 1) ≤ (n:ℚ) - 1 := by nlinarith
  have hcast : ((n:ℚ) - 1) = (((n : ℤ) - 1 : ℤ) : ℚ) := by push_cast; ring
  have h2 : Int.floor (q * ((n:ℚ) - 1)) ≤ (n : ℤ) - 1 := by
    calc Int.floor (q * ((n:ℚ) - 1)) ≤ Int.floor ((n:ℚ) - 1) := Int.floor_le_floor h1
      _ = (n : ℤ) - 1 := by rw [hcast, Int.floor_intCast]
  omega

/-- Every quantile of a constant batch is that constant. -/
lemma quantile_replicate {n : ℕ} {r q : ℚ} (hn : 1 ≤ n) (hq0 : 0 ≤ q)
    (hq1 : q ≤ 1) : quantile (List.replicate n r) q = r := by
  have hsort : List.insertionSort (fun a b : ℚ => a ≤ b) (List.replicate n r)
      = List.replicate n r :=
    perm_replicate_eq (List.perm_insertionSort _ _)
  unfold quantile
  simp only [hsort, List.length_replicate]
  set i := (Int.floor (q * ((n:ℚ) - 1))).toNat with hi
  have hilt : i < n := floor_scaled_index_lt hq0 hq1 hn
  have hlo : (List.replicate n r).getD i 0 = r := getD_replicate_of_lt hilt
  rw [hlo]
  by_cases hnext : i + 1 < n
  · rw [getD_replicate_of_lt hnext]; ring
  · have hlen : (List.replicate n r).length ≤ i + 1 := by
      simp [List.length_replicate]; omega
    rw [List.getD_eq_default _ _ hlen]; ring

lemma retentionRisk_replicate {n : ℕ} {c : ℚ} (hn : 1 ≤ n) :
    retentionRisk (List.replicate n c) c = 1 := by
  have hne : List.replicate n c ≠ [] := by
    simp [List.replicate_eq_nil_iff]; omega
  have hminmem := listMin_mem hne
  have hmaxmem := listMax_mem hne
  have hmin : listMin (List.replicate n c) = c := List.eq_of_mem_replicate hminmem
  have hmax : listMax (List.replicate n c) = c := List.eq_of_mem_replicate hmaxmem
  unfold retentionRisk minMaxScale
  rw [hmin, hmax, if_pos rfl]
  ring

/-- The tiering step fails on a batch of identical risks: both percentile
cut points coincide, so `pd.cut` raises on duplicate bin edges. -/
lemma assignTiers_replicate {n : ℕ} {r : ℚ} (hn : 1 ≤ n) :
    assignTiers (List.replicate n r) = none := by
  unfold assignTiers
  rw [quantile_replicate hn (by norm_num) (by norm_num),
    quantile_replicate hn (by norm_num) (by norm_num)]
  simp

/-- C2 (amended): whenever the batch's 50th and 90th risk percentiles are
distinct, `pd.cut` succeeds and assigns Low to risks `≤ p50`, Moderate to
risks in `(p50, p90]` and High to risks `> p90`; each value matches exactly
one tier, so the partition is exhaustive with ties at a boundary falling
into the lower tier. -/
theorem c2_tier_rule_and_partition (risks : List ℚ)
    (hlt : quantile risks (1/2) < quantile risks (9/10)) :
    assignTiers risks
      = some (risks.map (tierOf (quantile risks (1/2)) (quantile risks (9/10))))
    ∧ ∀ r : ℚ,
        (tierOf (quantile risks (1/2)) (quantile risks (9/10)) r = Tier.low
          ↔ r ≤ quantile risks (1/2))
        ∧ (tierOf (quantile risks (1/2)) (quantile risks (9/10)) r = Tier.moderate
          ↔ quantile risks (1/2) < r ∧ r ≤ quantile risks (9/10))
        ∧ (tierOf (quantile risks (1/2)) (quantile risks (9/10)) r = Tier.high
          ↔ quantile risks (9/10) < r) := by
  constructor
  · unfold assignTiers
    rw [if_pos hlt]
  · intro r
    set p50 := quantile risks (1/2)
    set p90 := quantile risks (9/10)
    unfold tierOf
    split_ifs with h1 h2
    · exact ⟨by simp [h1],
        ⟨False.elim, fun hc => absurd hc.1 (not_lt.mpr h1)⟩,
        ⟨False.elim, fun hc => absurd h1 (not_le.mpr (by linarith))⟩⟩
    · exact ⟨⟨False.elim, fun hc => h1 hc⟩,
        ⟨fun _ => ⟨not_le.mp h1, h2⟩, fun _ => rfl⟩,
        ⟨False.elim, fun hc => absurd h2 (not_le.mpr hc)⟩⟩
    · exact ⟨⟨False.elim, fun hc => h1 hc⟩,
        ⟨False.elim, fun hc => h2 hc.2⟩,
        ⟨fun _ => not_le.mp h2, fun _ => rfl⟩⟩

/-- C2 counterexample: on a batch in which every row has the same
`Predicted_Prob_Stay`, every `Retention_Risk` coincides, the two percentile
cut points are equal and the tiering step fails, so it is not the case that
every row of every scored batch falls into one of the three tiers. -/
theorem c2_counterexample :
    assignTiers ((List.replicate 3 ((1:ℚ)/2)).map
      (retentionRisk (List.replicate 3 ((1:ℚ)/2)))) = none := by
  have hr : retentionRisk (List.replicate 3 ((1:ℚ)/2)) ((1:ℚ)/2) = 1 :=
    retentionRisk_replicate (by norm_num)
  rw [List.map_replicate, hr]
  exact assignTiers_replicate (by norm_num)

/-- C2 witness: the amended tier rule evaluated on the concrete batch
`[0, 1, 2, 3]`, whose cut points are `p50 = 3/2` and `p90 = 27/10`. -/
theorem c2_witness :
    assignTiers [(0:ℚ), 1, 2, 3]
      = some [Tier.low, Tier.low, Tier.moderate, Tier.high] := by
  have ht1 : (1:ℤ).toNat = 1 := rfl
  have ht2 : (2:ℤ).toNat = 2 := rfl
  have hq50 : quantile [(0:ℚ), 1, 2, 3] (1/2) = 3/2 := by
    unfold quantile
    norm_num [List.insertionSort, List.orderedInsert, List.getD, ht1, ht2]
  have hq90 : quantile [(0:ℚ), 1, 2, 3] (9/10) = 27/10 := by
    unfold quantile
    norm_num [List.insertionSort, List.orderedInsert, List.getD, ht1, ht2]
  have h := (c2_tier_rule_and_partition [(0:ℚ), 1, 2, 3]
    (by rw [hq50, hq90]; norm_num)).1
  rw [h, hq50, hq90]
  norm_num [tierOf]

/-- Descending comparison on the `Retention_Risk` component of a scored row
`(original row, Predicted_Prob_Stay, Retention_Risk, Risk_Level)`, the sort
key of `df.sort_values(by="Retention_Risk", ascending=False)`. -/
def riskDescOrder (a b : List ℚ × ℚ × ℚ × Tier) : Prop := b.2.2.1 ≤ a.2.2.1

instance : DecidableRel riskDescOrder :=
  fun a b => inferInstanceAs (Decidable (b.2.2.1 ≤ a.2.2.1))

instance : IsTotal (List ℚ × ℚ × ℚ × Tier) riskDescOrder :=
  ⟨fun a b => le_total b.2.2.1 a.2.2.1⟩

instance : IsTrans (List ℚ × ℚ × ℚ × Tier) riskDescOrder :=
  ⟨fun _ _ _ hab hbc => le_trans hbc hab⟩

/-- Notebook cells 8 and 9, per row: attach `Predicted_Prob_Stay`,
`Retention_Risk` and `Risk_Level` to each original row and sort the result
by risk, highest first.  `none` models the run aborting when `pd.cut`
raises on coinciding percentile cut points. -/
def scoreRows (rows : List (List ℚ)) (probs : List ℚ) :
    Option (List (List ℚ × ℚ × ℚ × Tier)) :=
  match assignTiers (probs.map (retentionRisk probs)) with
  | none => none
  | some tiers =>
      some (List.insertionSort riskDescOrder
        (rows.zip (probs.zip ((probs.map (retentionRisk probs)).zip tiers))))

/-- C10: on a batch in which every row has the same `Predicted_Prob_Stay`,
every `Retention_Risk` coincides, the batch's 50th and 90th percentiles are
equal, and the tiering step raises (`pd.cut` rejects the coinciding bin
edges) instead of assigning a tier to each row, so scoring fails. -/
theorem c10_constant_batch_tiering_fails (rows : List (List ℚ)) (n : ℕ)
    (c : ℚ) (hn : 1 ≤ n) : scoreRows rows (List.replicate n c) = none := by
  unfold scoreRows
  rw [List.map_replicate, retentionRisk_replicate hn]
  simp only [assignTiers_replicate hn]

/-- C10 witness: a concrete three-row batch with constant stay-probability. -/
theorem c10_witness :
    scoreRows [[1], [2], [3]] (List.replicate 3 ((1:ℚ)/2)) = none :=
  c10_constant_batch_tiering_fails [[1], [2], [3]] 3 ((1:ℚ)/2) (by norm_num)

/-- A pandas DataFrame restricted to what the pipeline uses: an ordered
association list of named numeric columns. -/
abbrev Table : Type := List (String × List ℚ)

/-- Column lookup (`df[name]`): the first column with the given name. -/
def getCol? : Table → String → Option (List ℚ)
  | [], _ => none
  | c :: t, n => if c.1 = n then some c.2 else getCol? t n

/-- Column presence test (`name in df.columns`). -/
def hasCol (t : Table) (n : String) : Bool := (getCol? t n).isSome

/-- Column assignment (`df[name] = values`): overwrite in place when the
column exists, append at the end otherwise. -/
def setCol : Table → String → List ℚ → Table
  | [], n, v => [(n, v)]
  | c :: t, n, v => if c.1 = n then (n, v) :: t else c :: setCol t n v

lemma getCol?_setCol_same (t : Table) (n : String) (v : List ℚ) :
    getCol? (setCol t n v) n = some v := by
  induction t with
  | nil => simp [setCol, getCol?]
  | cons c t ih =>
    by_cases h : c.1 = n
    · simp [setCol, getCol?, h]
    · simp [setCol, getCol?, h, ih]

lemma getCol?_setCol_ne (t : Table) {n m : String} (v : List ℚ) (h : m ≠ n) :
    getCol? (setCol t n v) m = getCol? t m := by
  induction t with
  | nil => simp [setCol, getCol?, Ne.symm h]
  | cons c t ih =>
    by_cases hc : c.1 = n
    · have hcm : c.1 ≠ m := by rw [hc]; exact Ne.symm h
      simp [setCol, getCol?, hc, Ne.symm h, hcm]
    · simp [setCol, getCol?, hc, ih]

lemma setCol_self {t : Table} {n : String} {v : List ℚ}
    (h : getCol? t n = some v) : setCol t n v = t := by
  induction t with
  | nil => simp [getCol?] at h
  | cons c t ih =>
    by_cases hc : c.1 = n
    · simp only [getCol?, if_pos hc, Option.some.injEq] at h
      have hcv : c = (n, v) := by cases c; simp_all
      simp [setCol, hc, hcv]
    · simp only [getCol?, if_neg hc] at h
      simp [setCol, hc, ih h]

/-- One entry of the notebook's feature-engineering cell: if both source
columns exist, compute the derived column elementwise and assign it,
otherwise skip silently. -/
def engineerOne (src1 src2 out : String) (f : ℚ → ℚ → ℚ) (t : Table) : Table :=
  match getCol? t src1, getCol? t src2 with
  | some a, some b => setCol t out (List.zipWith f a b)
  | _, _ => t

/-- Notebook cell 2, `Create engineered features`: `Engagement_Index`,
`Promotion_Rate` and `Overtime_SensitiveRole`, each guarded by the presence
of its two source columns. -/
def engineerFeatures (t : Table) : Table :=
  engineerOne "Doing_Overtime" "Laboratory_Technician" "Overtime_SensitiveRole"
    (fun a b => a * b)
    (engineerOne "YearsSinceLastPromotion" "YearsAtCompany" "Promotion_Rate"
      (fun a b => a / (b + 1))
      (engineerOne "JobSatisfaction" "WorkLifeBalance" "Engagement_Index"
        (fun a b => a * b) t))

lemma getCol?_engineerOne_ne (src1 src2 out : String) (f : ℚ → ℚ → ℚ)
    (t : Table) {m : String} (h : m ≠ out) :
    getCol? (engineerOne src1 src2 out f t) m = getCol? t m := by
  unfold engineerOne
  cases getCol? t src1 <;> cases getCol? t src2 <;>
    simp [getCol?_setCol_ne _ _ h]

lemma engineerOne_skip {src1 src2 out : String} {f : ℚ → ℚ → ℚ} {t : Table}
    (h : getCol? t src1 = none ∨ getCol? t src2 = none) :
    engineerOne src1 src2 out f t = t := by
  unfold engineerOne
  rcases h with h | h
  · rw [h]
  · rw [h]; cases getCol? t src1 <;> rfl

lemma engineerOne_compute {src1 src2 out : String} {f : ℚ → ℚ → ℚ} {t : Table}
    {a b : List ℚ} (h1 : getCol? t src1 = some a) (h2 : getCol? t src2 = some b) :
    engineerOne src1 src2 out f t = setCol t out (List.zipWith f a b) := by
  unfold engineerOne
  rw [h1, h2]

lemma engineerOne_eq_self {src1 src2 out : String} {f : ℚ → ℚ → ℚ} {t : Table}
    (h : ∀ a b, getCol? t src1 = some a → getCol? t src2 = some b →
      getCol? t out = some (List.zipWith f a b)) :
    engineerOne src1 src2 out f t = t := by
  unfold engineerOne
  cases h1 : getCol? t src1 with
  | none => rfl
  | some a =>
    cases h2 : getCol? t src2 with
    | none => rfl
    | some b => exact setCol_self (h a b h1 h2)

lemma engineerFeatures_fix1 (t : Table) :
    engineerOne "JobSatisfaction" "WorkLifeBalance" "Engagement_Index"
      (fun a b => a * b) (engineerFeatures t) = engineerFeatures t := by
  apply engineerOne_eq_self
  intro a b ha hb
  unfold engineerFeatures at ha hb ⊢
  rw [getCol?_engineerOne_ne _ _ _ _ _ (by decide),
      getCol?_engineerOne_ne _ _ _ _ _ (by decide),
      getCol?_engineerOne_ne _ _ _ _ _ (by decide)] at ha
  rw [getCol?_engineerOne_ne _ _ _ _ _ (by decide),
      getCol?_engineerOne_ne _ _ _ _ _ (by decide),
      getCol?_engineerOne_ne _ _ _ _ _ (by decide)] at hb
  rw [getCol?_engineerOne_ne _ _ _ _ _ (by decide),
      getCol?_engineerOne_ne _ _ _ _ _ (by decide),
      engineerOne_compute ha hb, getCol?_setCol_same]

lemma engineerFeatures_fix2 (t : Table) :
    engineerOne "YearsSinceLastPromotion" "YearsAtCompany" "Promotion_Rate"
      (fun a b => a / (b + 1)) (engineerFeatures t) = engineerFeatures t := by
  apply engineerOne_eq_self
  intro a b ha hb
  unfold engineerFeatures at ha hb ⊢
  rw [getCol?_engineerOne_ne _ _ _ _ _ (by decide),
      getCol?_engineerOne_ne _ _ _ _ _ (by decide)] at ha
  rw [getCol?_engineerOne_ne _ _ _ _ _ (by decide),
      getCol?_engineerOne_ne _ _ _ _ _ (by decide)] at hb
  rw [getCol?_engineerOne_ne _ _ _ _ _ (by decide),
      engineerOne_compute ha hb, getCol?_setCol_same]

lemma engineerFeatures_fix3 (t : Table) :
    engineerOne "Doing_Overtime" "Laboratory_Technician" "Overtime_SensitiveRole"
      (fun a b => a * b) (engineerFeatures t) = engineerFeatures t := by
  apply engineerOne_eq_self
  intro a b ha hb
  unfold engineerFeatures at ha hb ⊢
  rw [getCol?_engineerOne_ne _ _ _ _ _ (by decide)] at ha
  rw [getCol?_engineerOne_ne _ _ _ _ _ (by decide)] at hb
  rw [engineerOne_compute ha hb, getCol?_setCol_same]

lemma getCol?_engineerFeatures_ne (t : Table) {n : String}
    (h1 : n ≠ "Engagement_Index") (h2 : n ≠ "Promotion_Rate")
    (h3 : n ≠ "Overtime_SensitiveRole") :
    getCol? (engineerFeatures t) n = getCol? t n := by
  unfold engineerFeatures
  rw [getCol?_engineerOne_ne _ _ _ _ _ h3, getCol?_engineerOne_ne _ _ _ _ _ h2,
    getCol?_engineerOne_ne _ _ _ _ _ h1]

/-- C6: the Feature Engineer is idempotent, changes no pre-existing
non-derived column, and appends each derived column exactly when both of
its source columns exist (skipping silently otherwise). -/
theorem c6_feature_engineer_idempotent (t : Table) :
    engineerFeatures (engineerFeatures t) = engineerFeatures t
    ∧ (∀ n : String, n ≠ "Engagement_Index" → n ≠ "Promotion_Rate" →
        n ≠ "Overtime_SensitiveRole" →
        getCol? (engineerFeatures t) n = getCol? t n)
    ∧ (hasCol t "Engagement_Index" = false →
        hasCol (engineerFeatures t) "Engagement_Index"
          = (hasCol t "JobSatisfaction" && hasCol t "WorkLifeBalance"))
    ∧ (hasCol t "Promotion_Rate" = false →
        hasCol (engineerFeatures t) "Promotion_Rate"
          = (hasCol t "YearsSinceLastPromotion" && hasCol t "YearsAtCompany"))
    ∧ (hasCol t "Overtime_SensitiveRole" = false →
        hasCol (engineerFeatures t) "Overtime_SensitiveRole"
          = (hasCol t "Doing_Overtime" && hasCol t "Laboratory_Technician")) := by
  refine ⟨?_, ?_, ?_, ?_, ?_⟩
  · calc
      engineerFeatures (engineerFeatures t)
          = engineerOne "Doing_Overtime" "Laboratory_Technician"
              "Overtime_SensitiveRole" (fun a b => a * b)
              (engineerOne "YearsSinceLastPromotion" "YearsAtCompany"
                "Promotion_Rate" (fun a b => a / (b + 1))
                (engineerOne "JobSatisfaction" "WorkLifeBalance"
                  "Engagement_Index" (fun a b => a * b)
                  (engineerFeatures t))) := rfl
      _ = engineerFeatures t := by
          rw [engineerFeatures_fix1, engineerFeatures_fix2, engineerFeatures_fix3]
  · intro n h1 h2 h3
    exact getCol?_engineerFeatures_ne t h1 h2 h3
  · intro h
    cases hjs : getCol? t "JobSatisfaction" with
    | none =>
      have hfr : getCol? (engineerFeatures t) "Engagement_Index"
          = getCol? t "Engagement_Index" := by
        unfold engineerFeatures
        rw [getCol?_engineerOne_ne _ _ _ _ _ (by decide),
            getCol?_engineerOne_ne _ _ _ _ _ (by decide),
            engineerOne_skip (Or.inl hjs)]
      unfold hasCol at h ⊢
      rw [hfr]
      simp [hjs, h]
    | some a =>
      cases hwlb : getCol? t "WorkLifeBalance" with
      | none =>
        have hfr : getCol? (engineerFeatures t) "Engagement_Index"
            = getCol? t "Engagement_Index" := by
          unfold engineerFeatures
          rw [getCol?_engineerOne_ne _ _ _ _ _ (by decide),
              getCol?_engineerOne_ne _ _ _ _ _ (by decide),
              engineerOne_skip (Or.inr hwlb)]
        unfold hasCol at h ⊢
        rw [hfr]
        simp [hjs, hwlb, h]
      | some b =>
        have hset : getCol? (engineerFeatures t) "Engagement_Index"
            = some (List.zipWith (fun a b => a * b) a b) := by
          unfold engineerFeatures
          rw [getCol?_engineerOne_ne _ _ _ _ _ (by decide),
              getCol?_engineerOne_ne _ _ _ _ _ (by decide),
              engineerOne_compute hjs hwlb, getCol?_setCol_same]
        unfold hasCol
        rw [hset]
        simp [hjs, hwlb]
  · intro h
    cases hys : getCol? t "YearsSinceLastPromotion" with
    | none =>
      have hs1 : getCol? (engineerOne "JobSatisfaction" "WorkLifeBalance"
          "Engagement_Index" (fun a b => a * b) t) "YearsSinceLastPromotion"
          = none := by
        rw [getCol?_engineerOne_ne _ _ _ _ _ (by decide)]; exact hys
      have hfr : getCol? (engineerFeatures t) "Promotion_Rate"
          = getCol? t "Promotion_Rate" := by
        unfold engineerFeatures
        rw [getCol?_engineerOne_ne _ _ _ _ _ (by decide),
            engineerOne_skip (Or.inl hs1),
            getCol?_engineerOne_ne _ _ _ _ _ (by decide)]
      unfold hasCol at h ⊢
      rw [hfr]
      simp [hys, h]
    | some a =>
      cases hyc : getCol? t "YearsAtCompany" with
      | none =>
        have hs2 : getCol? (engineerOne "JobSatisfaction" "WorkLifeBalance"
            "Engagement_Index" (fun a b => a * b) t) "YearsAtCompany"
            = none := by
          rw [getCol?_engineerOne_ne _ _ _ _ _ (by decide)]; exact hyc
        have hfr : getCol? (engineerFeatures t) "Promotion_Rate"
            = getCol? t "Promotion_Rate" := by
          unfold engineerFeatures
          rw [getCol?_engineerOne_ne _ _ _ _ _ (by decide),
              engineerOne_skip (Or.inr hs2),
              getCol?_engineerOne_ne _ _ _ _ _ (by decide)]
        unfold hasCol at h ⊢
        rw [hfr]
        simp [hys, hyc, h]
      | some b =>
        have hs1 : getCol? (engineerOne "JobSatisfaction" "WorkLifeBalance"
            "Engagement_Index" (fun a b => a * b) t) "YearsSinceLastPromotion"
            = some a := by
          rw [getCol?_engineerOne_ne _ _ _ _ _ (by decide)]; exact hys
        have hs2 : getCol? (engineerOne "JobSatisfaction" "WorkLifeBalance"
            "Engagement_Index" (fun a b => a * b) t) "YearsAtCompany"
            = some b := by
          rw [getCol?_engineerOne_ne _ _ _ _ _ (by decide)]; exact hyc
        have hset : getCol? (engineerFeatures t) "Promotion_Rate"
            = some (List.zipWith (fun a b => a / (b + 1)) a b) := by
          unfold engineerFeatures
          rw [getCol?_engineerOne_ne _ _ _ _ _ (by decide),
              engineerOne_compute hs1 hs2, getCol?_setCol_same]
        unfold hasCol
        rw [hset]
        simp [hys, hyc]
  · intro h
    cases hdo : getCol? t "Doing_Overtime" with
    | none =>
      have hs1 : getCol? (engineerOne "YearsSinceLastPromotion" "YearsAtCompany"
          "Promotion_Rate" (fun a b => a / (b + 1))
          (engineerOne "JobSatisfaction" "WorkLifeBalance" "Engagement_Index"
            (fun a b => a * b) t)) "Doing_Overtime" = none := by
        rw [getCol?_engineerOne_ne _ _ _ _ _ (by decide),
            getCol?_engineerOne_ne _ _ _ _ _ (by decide)]
        exact hdo
      have hfr : getCol? (engineerFeatures t) "Overtime_SensitiveRole"
          = getCol? t "Overtime_SensitiveRole" := by
        unfold engineerFeatures
        rw [engineerOne_skip (Or.inl hs1),
            getCol?_engineerOne_ne _ _ _ _ _ (by decide),
            getCol?_engineerOne_ne _ _ _ _ _ (by decide)]
      unfold hasCol at h ⊢
      rw [hfr]
      simp [hdo, h]
    | some a =>
      cases hlt : getCol? t "Laboratory_Technician" with
      | none =>
        have hs2 : getCol? (engineerOne "YearsSinceLastPromotion" "YearsAtCompany"
            "Promotion_Rate" (fun a b => a / (b + 1))
            (engineerOne "JobSatisfaction" "WorkLifeBalance" "Engagement_Index"
              (fun a b => a * b) t)) "Laboratory_Technician" = none := by
          rw [getCol?_engineerOne_ne _ _ _ _ _ (by decide),
              getCol?_engineerOne_ne _ _ _ _ _ (by decide)]
          exact hlt
        have hfr : getCol? (engineerFeatures t) "Overtime_SensitiveRole"
            = getCol? t "Overtime_SensitiveRole" := by
          unfold engineerFeatures
          rw [engineerOne_skip (Or.inr hs2),
              getCol?_engineerOne_ne _ _ _ _ _ (by decide),
              getCol?_engineerOne_ne _ _ _ _ _ (by decide)]
        unfold hasCol at h ⊢
        rw [hfr]
        simp [hdo, hlt, h]
      | some b =>
        have hs1 : getCol? (engineerOne "YearsSinceLastPromotion" "YearsAtCompany"
            "Promotion_Rate" (fun a b => a / (b + 1))
            (engineerOne "JobSatisfaction" "WorkLifeBalance" "Engagement_Index"
              (fun a b => a * b) t)) "Doing_Overtime" = some a := by
          rw [getCol?_engineerOne_ne _ _ _ _ _ (by decide),
              getCol?_engineerOne_ne _ _ _ _ _ (by decide)]
          exact hdo
        have hs2 : getCol? (engineerOne "YearsSinceLastPromotion" "YearsAtCompany"
            "Promotion_Rate" (fun a b => a / (b + 1))
            (engineerOne "JobSatisfaction" "WorkLifeBalance" "Engagement_Index"
              (fun a b => a * b) t)) "Laboratory_Technician" = some b := by
          rw [getCol?_engineerOne_ne _ _ _ _ _ (by decide),
              getCol?_engineerOne_ne _ _ _ _ _ (by decide)]
          exact hlt
        have hset : getCol? (engineerFeatures t) "Overtime_SensitiveRole"
            = some (List.zipWith (fun a b => a * b) a b) := by
          unfold engineerFeatures
          rw [engineerOne_compute hs1 hs2, getCol?_setCol_same]
        unfold hasCol
        rw [hset]
        simp [hdo, hlt]

/-- C6 witness: the frame part of the theorem applied to a concrete
two-column table. -/
theorem c6_witness :
    getCol? (engineerFeatures
        [("JobSatisfaction", [(2:ℚ)]), ("WorkLifeBalance", [3])])
      "JobSatisfaction"
    = getCol? [("JobSatisfaction", [(2:ℚ)]), ("WorkLifeBalance", [3])]
      "JobSatisfaction" :=
  (c6_feature_engineer_idempotent
    [("JobSatisfaction", [(2:ℚ)]), ("WorkLifeBalance", [3])]).2.1
    "JobSatisfaction" (by decide) (by decide) (by decide)

/-- pandas `DataFrame.drop(columns=names, errors=...)`: with
`errors='ignore'` missing names are tolerated, while the default
`errors='raise'` raises a `KeyError` (modelled as `none`) when a name is
absent. -/
def pdDrop (t : Table) (names : List String) (ignoreErrors : Bool) :
    Option Table :=
  if !ignoreErrors && names.any (fun n => !(hasCol t n)) then none
  else some (t.filter (fun c => !(names.contains c.1)))

lemma getCol?_eq_none_of_hasCol_false {t : Table} {n : String}
    (h : hasCol t n = false) : getCol? t n = none := by
  cases hg : getCol? t n with
  | none => rfl
  | some v => unfold hasCol at h; rw [hg] at h; simp at h

/-- C8: on an input missing all six optional engineered-feature source
columns, the Feature Engineer adds zero columns and does not fail (it
returns the table unchanged), and dropping possibly-absent identifier
columns with `errors='ignore'` succeeds rather than raising. -/
theorem c8_missing_sources_skip_and_drop_ignores (t : Table)
    (h1 : hasCol t "JobSatisfaction" = false)
    (h2 : hasCol t "WorkLifeBalance" = false)
    (h3 : hasCol t "YearsSinceLastPromotion" = false)
    (h4 : hasCol t "YearsAtCompany" = false)
    (h5 : hasCol t "Doing_Overtime" = false)
    (h6 : hasCol t "Laboratory_Technician" = false) :
    engineerFeatures t = t
    ∧ (pdDrop t ["Retained", "EmployeeNumber"] true).isSome = true := by
  constructor
  · unfold engineerFeatures
    rw [engineerOne_skip (Or.inl (getCol?_eq_none_of_hasCol_false h1)),
        engineerOne_skip (Or.inl (getCol?_eq_none_of_hasCol_false h3)),
        engineerOne_skip (Or.inl (getCol?_eq_none_of_hasCol_false h5))]
  · simp [pdDrop]

/-- C8 witness: a concrete table with none of the optional source columns. -/
theorem c8_witness :
    engineerFeatures [("Retained", [(1:ℚ)]), ("Age", [30])]
      = [("Retained", [(1:ℚ)]), ("Age", [30])]
    ∧ (pdDrop [("Retained", [(1:ℚ)]), ("Age", [30])]
        ["Retained", "EmployeeNumber"] true).isSome = true :=
  c8_missing_sources_skip_and_drop_ignores
    [("Retained", [(1:ℚ)]), ("Age", [30])]
    (by decide) (by decide) (by decide) (by decide) (by decide) (by decide)

/-- C9: when both promotion-rate source columns exist and the tenure column
holds the data's nonnegative year counts, the engineered column equals
`YearsSinceLastPromotion / (YearsAtCompany + 1)` elementwise and every
denominator is nonzero: divide-by-zero is avoided by construction of the
tenure-plus-one denominator. -/
theorem c9_promotion_rate_no_division_by_zero (t : Table) (a b : List ℚ)
    (ha : getCol? t "YearsSinceLastPromotion" = some a)
    (hb : getCol? t "YearsAtCompany" = some b)
    (hnn : ∀ x ∈ b, 0 ≤ x) :
    getCol? (engineerFeatures t) "Promotion_Rate"
      = some (List.zipWith (fun y c => y / (c + 1)) a b)
    ∧ ∀ x ∈ b, x + 1 ≠ 0 := by
  have hs1 : getCol? (engineerOne "JobSatisfaction" "WorkLifeBalance"
      "Engagement_Index" (fun a b => a * b) t) "YearsSinceLastPromotion"
      = some a := by
    rw [getCol?_engineerOne_ne _ _ _ _ _ (by decide)]; exact ha
  have hs2 : getCol? (engineerOne "JobSatisfaction" "WorkLifeBalance"
      "Engagement_Index" (fun a b => a * b) t) "YearsAtCompany"
      = some b := by
    rw [getCol?_engineerOne_ne _ _ _ _ _ (by decide)]; exact hb
  constructor
  · unfold engineerFeatures
    rw [getCol?_engineerOne_ne _ _ _ _ _ (by decide),
        engineerOne_compute hs1 hs2, getCol?_setCol_same]
  · intro x hx hc
    have := hnn x hx
    have hx1 : x = -1 := by linarith
    rw [hx1] at this
    norm_num at this

/-- C9 witness: a concrete table with two-year promotion gap and four-year
tenure. -/
theorem c9_witness :
    getCol? (engineerFeatures
        [("YearsSinceLastPromotion", [(2:ℚ)]), ("YearsAtCompany", [4])])
      "Promotion_Rate"
      = some (List.zipWith (fun y c => y / (c + 1)) [(2:ℚ)] [(4:ℚ)])
    ∧ ∀ x ∈ [(4:ℚ)], x + 1 ≠ 0 :=
  c9_promotion_rate_no_division_by_zero
    [("YearsSinceLastPromotion", [(2:ℚ)]), ("YearsAtCompany", [4])]
    [(2:ℚ)] [(4:ℚ)] (by decide) (by decide) (by decide)

/-- The ordered list of column names (`df.columns`). -/
def colNames (t : Table) : List String := t.map (fun c => c.1)

/-- Name-level effect of one pandas column assignment: overwriting keeps the
name list, assigning a fresh column appends its name at the end. -/
def addColName (ns : List String) (n : String) : List String :=
  if n ∈ ns then ns else ns ++ [n]

/-- Column names of the exported table: the engineered table's columns
followed by the three scoring columns assigned in notebook cell 8. -/
def exportColNames (t : Table) : List String :=
  addColName (addColName (addColName (colNames (engineerFeatures t))
    "Predicted_Prob_Stay") "Retention_Risk") "Risk_Level"

/-- `addColName` is the name-level shadow of `setCol`. -/
lemma colNames_setCol (t : Table) (n : String) (v : List ℚ) :
    colNames (setCol t n v) = addColName (colNames t) n := by
  induction t with
  | nil => simp [setCol, colNames, addColName]
  | cons c t ih =>
    by_cases h : c.1 = n
    · simp [setCol, colNames, addColName, h]
    · have hstep : setCol (c :: t) n v = c :: setCol t n v := by
        simp [setCol, h]
      rw [hstep]
      by_cases hm : n ∈ colNames t
      · simp only [colNames, List.map_cons] at ih ⊢
        rw [ih]
        simp only [colNames] at hm
        simp [addColName, hm, Ne.symm h]
      · simp only [colNames, List.map_cons] at ih ⊢
        rw [ih]
        simp only [colNames] at hm
        simp [addColName, hm, Ne.symm h]

lemma assignTiers_length {risks : List ℚ} {tiers : List Tier}
    (h : assignTiers risks = some tiers) : tiers.length = risks.length := by
  unfold assignTiers at h
  split_ifs at h with hlt
  · cases h
    simp

/-- C7 counterexample: for an input that has the optional source columns,
the export contains the engineered column `Engagement_Index`, which is
neither an input column nor one of the three scoring columns, so the
exported column set is not `input columns + exactly those three`. -/
theorem c7_counterexample :
    "Engagement_Index" ∈ exportColNames
      [("JobSatisfaction", [(1:ℚ)]), ("WorkLifeBalance", [2])]
    ∧ "Engagement_Index" ∉
      (colNames [("JobSatisfaction", [(1:ℚ)]), ("WorkLifeBalance", [2])]
        ++ ["Predicted_Prob_Stay", "Retention_Risk", "Risk_Level"]) := by
  decide

/-- C7 (amended): the export carries the engineered table's columns plus
exactly the three scoring columns `Predicted_Prob_Stay`, `Retention_Risk`
and `Risk_Level`; it contains all original rows (as a permutation), each
output row carries a stay-probability in `[0,1]`, a risk in `[0,1]` and a
tier, and the rows are sorted descending by `Retention_Risk`, highest
first. -/
theorem c7_export_shape (t : Table) (rows : List (List ℚ)) (probs : List ℚ)
    (out : List (List ℚ × ℚ × ℚ × Tier))
    (hlen : probs.length = rows.length)
    (hp : ∀ p ∈ probs, 0 ≤ p ∧ p ≤ 1)
    (hout : scoreRows rows probs = some out)
    (hn1 : "Predicted_Prob_Stay" ∉ colNames (engineerFeatures t))
    (hn2 : "Retention_Risk" ∉ colNames (engineerFeatures t))
    (hn3 : "Risk_Level" ∉ colNames (engineerFeatures t)) :
    exportColNames t = colNames (engineerFeatures t)
      ++ ["Predicted_Prob_Stay", "Retention_Risk", "Risk_Level"]
    ∧ (out.map (fun s => s.1)).Perm rows
    ∧ out.length = rows.length
    ∧ List.Sorted riskDescOrder out
    ∧ ∀ s ∈ out, (0 ≤ s.2.1 ∧ s.2.1 ≤ 1) ∧ 0 ≤ s.2.2.1 ∧ s.2.2.1 ≤ 1 := by
  unfold scoreRows at hout
  cases hassign : assignTiers (probs.map (retentionRisk probs)) with
  | none => rw [hassign] at hout; simp at hout
  | some tiers =>
    rw [hassign] at hout
    simp only [Option.some.injEq] at hout
    have htlen : tiers.length = probs.length := by
      have := assignTiers_length hassign
      simpa using this
    have hinner : probs.length ≤
        (probs.zip ((probs.map (retentionRisk probs)).zip tiers)).length := by
      simp [List.length_zip, htlen]
    have hperm0 : (List.insertionSort riskDescOrder
        (rows.zip (probs.zip ((probs.map (retentionRisk probs)).zip tiers)))).Perm
        (rows.zip (probs.zip ((probs.map (retentionRisk probs)).zip tiers))) :=
      List.perm_insertionSort _ _
    have hzfst : ((rows.zip (probs.zip
        ((probs.map (retentionRisk probs)).zip tiers))).map (fun s => s.1))
        = rows := by
      have := List.map_fst_zip rows
        (probs.zip ((probs.map (retentionRisk probs)).zip tiers))
        (by rw [← hlen]; exact hinner)
      simpa using this
    refine ⟨?_, ?_, ?_, ?_, ?_⟩
    · unfold exportColNames addColName
      rw [if_neg hn1,
        if_neg (show "Retention_Risk" ∉
          colNames (engineerFeatures t) ++ ["Predicted_Prob_Stay"] by
            simp [hn2]),
        if_neg (show "Risk_Level" ∉
          (colNames (engineerFeatures t) ++ ["Predicted_Prob_Stay"])
            ++ ["Retention_Risk"] by simp [hn3])]
      simp
    · rw [← hout]
      have hmap := hperm0.map (fun s => s.1)
      rw [hzfst] at hmap
      exact hmap
    · rw [← hout]
      rw [hperm0.length_eq]
      simp [List.length_zip, htlen, hlen]
    · rw [← hout]
      exact List.sorted_insertionSort riskDescOrder _
    · intro s hs
      rw [← hout] at hs
      have hsz := hperm0.mem_iff.mp hs
      obtain ⟨r0, p, rk, tr⟩ := s
      have h1 := List.of_mem_zip hsz
      have h2 := List.of_mem_zip h1.2
      have h3 := List.of_mem_zip h2.2
      refine ⟨hp p h2.1, ?_⟩
      have hrk : rk ∈ probs.map (retentionRisk probs) := h3.1
      obtain ⟨q, hq, hqrk⟩ := List.mem_map.mp hrk
      rw [← hqrk]
      exact retentionRisk_mem_unit hq

/-- C7 witness: a concrete four-row batch with stay-probabilities
`[0, 1, 1, 0]`, scored and exported. -/
theorem c7_witness :
    exportColNames [("Age", [(30:ℚ), 40, 25, 35])]
      = colNames (engineerFeatures [("Age", [(30:ℚ), 40, 25, 35])])
        ++ ["Predicted_Prob_Stay", "Retention_Risk", "Risk_Level"]
    ∧ (([([(10:ℚ)], (0:ℚ), (1:ℚ), Tier.moderate),
        ([40], 0, 1, Tier.moderate),
        ([20], 1, 0, Tier.low),
        ([30], 1, 0, Tier.low)]).map (fun s => s.1)).Perm
        [[(10:ℚ)], [20], [30], [40]]
    ∧ ([([(10:ℚ)], (0:ℚ), (1:ℚ), Tier.moderate),
        ([40], 0, 1, Tier.moderate),
        ([20], 1, 0, Tier.low),
        ([30], 1, 0, Tier.low)]).length = [[(10:ℚ)], [20], [30], [40]].length
    ∧ List.Sorted riskDescOrder
        [([(10:ℚ)], (0:ℚ), (1:ℚ), Tier.moderate),
         ([40], 0, 1, Tier.moderate),
         ([20], 1, 0, Tier.low),
         ([30], 1, 0, Tier.low)]
    ∧ ∀ s ∈ [([(10:ℚ)], (0:ℚ), (1:ℚ), Tier.moderate),
        ([40], 0, 1, Tier.moderate),
        ([20], 1, 0, Tier.low),
        ([30], 1, 0, Tier.low)],
        (0 ≤ s.2.1 ∧ s.2.1 ≤ 1) ∧ 0 ≤ s.2.2.1 ∧ s.2.2.1 ≤ 1 := by
  have hrisks : List.map (retentionRisk [(0:ℚ), 1, 1, 0]) [(0:ℚ), 1, 1, 0]
      = [1, 0, 0, 1] := by
    unfold retentionRisk minMaxScale listMin listMax
    norm_num [List.foldl, min_def, max_def]
  have ht1 : (1:ℤ).toNat = 1 := rfl
  have ht2 : (2:ℤ).toNat = 2 := rfl
  have hq50 : quantile [(1:ℚ), 0, 0, 1] (1/2) = 1/2 := by
    unfold quantile
    norm_num [List.insertionSort, List.orderedInsert, List.getD, ht1, ht2]
  have hq90 : quantile [(1:ℚ), 0, 0, 1] (9/10) = 1 := by
    unfold quantile
    norm_num [List.insertionSort, List.orderedInsert, List.getD, ht1, ht2]
  have hassign : assignTiers [(1:ℚ), 0, 0, 1]
      = some [Tier.moderate, Tier.low, Tier.low, Tier.moderate] := by
    unfold assignTiers
    rw [hq50, hq90]
    norm_num [tierOf]
  have hout : scoreRows [[(10:ℚ)], [20], [30], [40]] [(0:ℚ), 1, 1, 0]
      = some [([(10:ℚ)], (0:ℚ), (1:ℚ), Tier.moderate),
          ([40], 0, 1, Tier.moderate),
          ([20], 1, 0, Tier.low),
          ([30], 1, 0, Tier.low)] := by
    unfold scoreRows
    rw [hrisks, hassign]
    decide
  exact c7_export_shape [("Age", [(30:ℚ), 40, 25, 35])]
    [[(10:ℚ)], [20], [30], [40]] [(0:ℚ), 1, 1, 0] _
    (by decide) (by decide) hout (by decide) (by decide) (by decide)

/-- Arithmetic mean of a column; `StandardScaler.fit` stores it per column
as `mean_`. -/
def colMean (c : List ℚ) : ℚ := c.sum / c.length

/-- Population variance of a column; `StandardScaler.fit` stores it per
column as `var_` (the fitted scale is its square root). -/
def colVar (c : List ℚ) : ℚ :=
  (c.map (fun x => (x - colMean c) ^ 2)).sum / c.length

/-- The per-column fitted parameters (mean, variance) of a
`StandardScaler.fit` on a column-major feature matrix. -/
def stdParams (cols : List (List ℚ)) : List (ℚ × ℚ) :=
  cols.map (fun c => (colMean c, colVar c))

/-- Column selection by a boolean support mask
(`X.loc[:, rfe_selector.support_]`). -/
def maskSelect {α : Type} : List Bool → List α → List α
  | b :: bs, x :: xs => if b then x :: maskSelect bs xs else maskSelect bs xs
  | _, _ => []

/-- The two scaler fits the notebook performs on the same full-row data:
cell 3 fits on all feature columns (`scaler_std.fit_transform(X)`), cell 5
refits the same scaler object on the RFE-selected column subset
(`scaler_std.fit_transform(X_selected)`). -/
def pipelineScalerFits (cols : List (List ℚ)) (support : List Bool) :
    List (List (ℚ × ℚ)) :=
  [stdParams cols, stdParams (maskSelect support cols)]

lemma maskSelect_map {α β : Type} (f : α → β) :
    ∀ (m : List Bool) (l : List α),
      maskSelect m (l.map f) = (maskSelect m l).map f := by
  intro m
  induction m with
  | nil => intro l; cases l <;> rfl
  | cons b bs ih =>
    intro l
    cases l with
    | nil => rfl
    | cons x xs => cases b <;> simp [maskSelect, ih]

/-- C3 counterexample: the pipeline performs a second `StandardScaler` fit,
and on an input with two feature columns of which RFE keeps one, that
second fit is over a different (strictly smaller) column set than the
Preprocessor's fit, so the claim that no refitting on a different column
set occurs between the Preprocessor's fit and scoring is false. -/
theorem c3_counterexample :
    pipelineScalerFits [[(1:ℚ), 2], [3, 5]] [true, false]
      = [stdParams [[(1:ℚ), 2], [3, 5]],
         stdParams (maskSelect [true, false] [[(1:ℚ), 2], [3, 5]])]
    ∧ (stdParams (maskSelect [true, false] [[(1:ℚ), 2], [3, 5]])).length
      ≠ (stdParams [[(1:ℚ), 2], [3, 5]]).length :=
  ⟨rfl, by decide⟩

/-- C3 (amended): the scaler is refit once, on the RFE-selected column
subset of the full matrix; because both fits range over the same rows, the
refit produces for each retained column exactly the parameters the first
fit produced for that column, so a single set of per-column scaling
parameters is used for every row scored together. -/
theorem c3_refit_reproduces_per_column_params (cols : List (List ℚ))
    (support : List Bool) :
    pipelineScalerFits cols support
      = [stdParams cols, maskSelect support (stdParams cols)] := by
  unfold pipelineScalerFits stdParams
  rw [maskSelect_map]

/-- sklearn `train_test_split(X, y, test_size=0.2, random_state=42)`: the
fixed seed determines one shuffled index order `perm`; sklearn takes
`ceil(0.2 * n)` test indices from the front of the shuffled order and the
remaining indices as the training partition. -/
structure Split where
  trainX : List (List ℚ)
  trainY : List ℚ
  testX : List (List ℚ)
  testY : List ℚ

def trainTestSplit (perm : List ℕ) (X : List (List ℚ)) (y : List ℚ) :
    Split :=
  { trainX := (perm.drop ((X.length + 4) / 5)).map (fun i => X.getD i [])
    trainY := (perm.drop ((X.length + 4) / 5)).map (fun i => y.getD i 0)
    testX := (perm.take ((X.length + 4) / 5)).map (fun i => X.getD i [])
    testY := (perm.take ((X.length + 4) / 5)).map (fun i => y.getD i 0) }

/-- Cell 4: split, then `SMOTE(random_state=42).fit_resample(X_train,
y_train)`; the resampler receives only the training partition, whatever
rows it synthesizes. -/
def splitThenBalance
    (resample : List (List ℚ) × List ℚ → List (List ℚ) × List ℚ)
    (perm : List ℕ) (X : List (List ℚ)) (y : List ℚ) : Split :=
  { trainX := (resample ((trainTestSplit perm X y).trainX,
      (trainTestSplit perm X y).trainY)).1
    trainY := (resample ((trainTestSplit perm X y).trainX,
      (trainTestSplit perm X y).trainY)).2
    testX := (trainTestSplit perm X y).testX
    testY := (trainTestSplit perm X y).testY }

/-- C4: whatever rows the oversampler synthesizes from the training
partition, the test partition after balancing is exactly the test
partition produced by the split: same rows, same row count, and the same
label distribution (count of every label value). -/
theorem c4_balancer_never_touches_test_partition
    (resample : List (List ℚ) × List ℚ → List (List ℚ) × List ℚ)
    (perm : List ℕ) (X : List (List ℚ)) (y : List ℚ) :
    (splitThenBalance resample perm X y).testX
      = (trainTestSplit perm X y).testX
    ∧ (splitThenBalance resample perm X y).testY
      = (trainTestSplit perm X y).testY
    ∧ (splitThenBalance resample perm X y).testX.length
      = (trainTestSplit perm X y).testX.length
    ∧ ∀ label : ℚ,
        (splitThenBalance resample perm X y).testY.count label
          = (trainTestSplit perm X y).testY.count label :=
  ⟨rfl, rfl, rfl, fun _ => rfl⟩

/-- Modelled from the spec: one elimination round of recursive feature
elimination.  The notebook calls the library routine
`RFE(estimator=RandomForestClassifier(), n_features_to_select=20)`, whose
loop body is not part of the repository; per the spec the round drops the
feature the importance ranking `score` rates lowest. -/
def removeLeastImportant (score : ℕ → ℚ) (feats : List ℕ) : List ℕ :=
  match feats.argmin score with
  | none => []
  | some a => feats.erase a

/-- Modelled from the spec: the full recursive-feature-elimination loop of
`RFE(n_features_to_select=k)` — iteratively fit an importance-ranking base
model on the remaining features (`score feats`) and drop the least
important feature until at most `k` features remain. -/
def rfeSelect (score : List ℕ → ℕ → ℚ) (k : ℕ) (feats : List ℕ) : List ℕ :=
  if h : feats.length ≤ k then feats
  else rfeSelect score k (removeLeastImportant (score feats) feats)
termination_by feats.length
decreasing_by
  have hne : feats ≠ [] := by
    intro he
    rw [he] at h
    simp at h
  have hlen : (removeLeastImportant (score feats) feats).length
      = feats.length - 1 := by
    unfold removeLeastImportant
    cases hm : feats.argmin (score feats) with
    | none => exact absurd (List.argmin_eq_none.mp hm) hne
    | some a => exact List.length_erase_of_mem (List.argmin_mem (by rw [hm]; rfl))
  rw [hlen]
  omega

lemma length_removeLeastImportant (score : ℕ → ℚ) (feats : List ℕ)
    (h : feats ≠ []) :
    (removeLeastImportant score feats).length = feats.length - 1 := by
  unfold removeLeastImportant
  cases hm : feats.argmin score with
  | none => exact absurd (List.argmin_eq_none.mp hm) h
  | some a => exact List.length_erase_of_mem (List.argmin_mem (by rw [hm]; rfl))

lemma removeLeastImportant_sublist (score : ℕ → ℚ) (feats : List ℕ) :
    (removeLeastImportant score feats).Sublist feats := by
  unfold removeLeastImportant
  cases feats.argmin score with
  | none => exact List.nil_sublist _
  | some a => exact List.erase_sublist a feats

lemma rfeSelect_spec (score : List ℕ → ℕ → ℚ) (k : ℕ) :
    ∀ n (feats : List ℕ), feats.length ≤ n → k ≤ feats.length →
      (rfeSelect score k feats).length = k
      ∧ (rfeSelect score k feats).Sublist feats := by
  intro n
  induction n with
  | zero =>
    intro feats hle hk
    have hstop : feats.length ≤ k := by omega
    rw [rfeSelect, dif_pos hstop]
    exact ⟨le_antisymm hstop hk, List.Sublist.refl _⟩
  | succ n ih =>
    intro feats hle hk
    by_cases hstop : feats.length ≤ k
    · rw [rfeSelect, dif_pos hstop]
      exact ⟨le_antisymm hstop hk, List.Sublist.refl _⟩
    · have hne : feats ≠ [] := by
        intro he
        rw [he] at hstop
        simp at hstop
      have hlen : (removeLeastImportant (score feats) feats).length
          = feats.length - 1 := length_removeLeastImportant _ _ hne
      have hrec := ih (removeLeastImportant (score feats) feats)
        (by omega) (by omega)
      rw [rfeSelect, dif_neg hstop]
      exact ⟨hrec.1, hrec.2.trans (removeLeastImportant_sublist _ _)⟩

/-- C5: for every feature matrix with at least 20 columns, recursive
feature elimination with `n_features_to_select=20` retains exactly 20 of
the original columns, whatever importance ranking the base model produces
at each round. -/
theorem c5_rfe_selects_exactly_twenty (score : List ℕ → ℕ → ℚ)
    (feats : List ℕ) (h : 20 ≤ feats.length) :
    (rfeSelect score 20 feats).length = 20
    ∧ (rfeSelect score 20 feats).Sublist feats :=
  rfeSelect_spec score 20 feats.length feats (le_refl _) h

/-- C5 witness: 21 candidate feature columns ranked by index. -/
theorem c5_witness :
    (rfeSelect (fun _ i => (i : ℚ)) 20 (List.range 21)).length = 20
    ∧ (rfeSelect (fun _ i => (i : ℚ)) 20 (List.range 21)).Sublist
        (List.range 21) :=
  c5_rfe_selects_exactly_twenty (fun _ i => (i : ℚ)) (List.range 21)
    (by decide)

end Retention
